import Mathlib

/-!
Verification development for the ragster repository: a shallow embedding of the
embedding/chunking/upsert pipeline shared by `process_document.py`,
`process_text.py` and `final_embedding_solution.py`, together with theorems
about the batching loop, the mock-embedding fallback, the paragraph-based
fallback chunker, record assembly, and batched upsert.
-/

namespace Ragster

/-! ### Batching

Source: the loop `for i in range(0, len(texts), batch_size): batch = texts[i:i + batch_size]`
appearing in `get_embeddings` (process_document.py:49, process_text.py:53),
`E5Embedder.generate_embeddings` (final_embedding_solution.py:78) and the upsert loops
(process_document.py:176, final_embedding_solution.py:253).
`batchesOf B l` is the list of slices `l[i:i+B]` for `i = 0, B, 2B, ...` in order. -/

def batchesOf (B : Nat) : List α → List (List α)
  | [] => []
  | a :: ts => ((a :: ts).take B) :: batchesOf B (ts.drop (B - 1))
termination_by l => l.length
decreasing_by
  simp only [List.length_drop, List.length_cons]
  omega

/-! ### Embedder

Source: `get_embeddings` (process_document.py:31-91, process_text.py:35-95) and
`E5Embedder.generate_embeddings` (final_embedding_solution.py:71-113).

The external embedding model is a collaborator: per the model boundary it
consumes a list of strings (each prefixed with `"passage: "`) and returns one
fixed-dimension vector per input, so it is modelled as a per-text function
`E : String → List ℝ` giving the pooled output (`last_hidden_state[:, 0]`) for
one input string.  Vector components are idealized as exact reals; the code's
`torch.nn.functional.normalize(·, p=2, dim=1)` divides each row by its
Euclidean norm (with the `eps` clamp idealized away, so the zero row is the
only row not mapped to a unit vector). -/

/-- Sum of squares of a vector: the square of its Euclidean norm. -/
noncomputable def sumSq (v : List ℝ) : ℝ := (v.map (fun x => x * x)).sum

/-- `torch.nn.functional.normalize(v, p=2)`: divide each component by the
Euclidean norm of `v` (source: final_embedding_solution.py:99). -/
noncomputable def l2normalize (v : List ℝ) : List ℝ :=
  v.map (fun x => x / Real.sqrt (sumSq v))

/-- The embedding the model path produces for one text: prefix with
`"passage: "`, invoke the model, normalize the pooled output. -/
noncomputable def embedText (E : String → List ℝ) (t : String) : List ℝ :=
  l2normalize (E ("passage: " ++ t))

/-- `E5Embedder.generate_embeddings` (final_embedding_solution.py:71-113) and the
`try`-body of `get_embeddings` (process_document.py:47-84): iterate over the
slices `texts[i:i+batch_size]`, prefix each text of the batch with
`"passage: "`, invoke the model once per batch, normalize each row of the
pooled output, and extend the accumulator with the batch's vectors in order. -/
noncomputable def generate_embeddings (E : String → List ℝ) (texts : List String)
    (batch_size : Nat) : List (List ℝ) :=
  ((batchesOf batch_size texts).map
    (fun batch => (batch.map (fun t => "passage: " ++ t)).map
      (fun s => l2normalize (E s)))).flatten

/-- One mock vector: `np.random.uniform(-1, 1, 1024).tolist()`
(process_document.py:35,91).  The numpy RNG is modelled as a stream
`rng : Nat → Nat → ℝ` giving component `j` of the `i`-th drawn vector. -/
def mockVec (rng : Nat → Nat → ℝ) (i : Nat) : List ℝ :=
  (List.range 1024).map (rng i)

/-- `[np.random.uniform(-1, 1, 1024).tolist() for _ in texts]`: one fresh
pseudo-random vector per input text. -/
def mockList (rng : Nat → Nat → ℝ) (n : Nat) : List (List ℝ) :=
  (List.range n).map (mockVec rng)

/-- `get_embeddings(texts, model_name, batch_size, use_mock)`
(process_document.py:31-91, identical in process_text.py:35-95).

`M : String → String → List ℝ` maps a model name to the per-text model
function; `modelOk` records whether loading/invoking that model succeeds
(`false` means some exception is raised inside the `try`, discarding any
partial results).  The code's control flow:
- `use_mock=True`: return mock vectors immediately, one per text;
- otherwise run the batching loop; then `dim = len(all_embeddings[0])` raises
  `IndexError` when no embedding was produced (empty input, or an empty batch
  slicing such as `batch_size=0`, where Python's `range` raises instead), and
  every exception is caught by the `except` block, which logs and returns mock
  vectors, one per text. -/
noncomputable def get_embeddings (M : String → String → List ℝ) (rng : Nat → Nat → ℝ)
    (modelOk : Bool) (texts : List String) (model_name : String)
    (batch_size : Nat) (use_mock : Bool) : List (List ℝ) :=
  if use_mock then mockList rng texts.length
  else if modelOk then
    let all_embeddings := generate_embeddings (M model_name) texts batch_size
    if all_embeddings.isEmpty then mockList rng texts.length
    else all_embeddings
  else mockList rng texts.length

/-! ### Fallback paragraph-based chunker

Source: the `except ImportError` branch of `DocumentProcessor.split_text`
(final_embedding_solution.py:182-210): split the text into paragraphs with
`re.split(r'\n\s*\n', text)`, strip each, skip empty ones, then greedily pack
paragraphs into chunks whose summed paragraph length stays within
`chunk_size`; on overflow the current chunk is emitted and, when
`chunk_overlap > 0`, its last paragraph (`current_chunk[-1:]`) seeds the next
chunk.  Chunks are rendered with `"\n\n".join(...)`.  Texts are modelled as
`List Char` (`String.data`). -/

/-- ASCII whitespace recognized by Python's `\s` and `str.strip()`. -/
def isPySpace (c : Char) : Bool :=
  c = ' ' || c = '\t' || c = '\n' || c = '\r' || c = '\x0b' || c = '\x0c'

/-- Index of the last occurrence of `c`, if any (Python `str.rfind`). -/
def lastIdxOf (c : Char) : List Char → Option Nat
  | [] => none
  | a :: rest =>
    match lastIdxOf c rest with
    | some i => some (i + 1)
    | none => if a = c then some 0 else none

/-- Scanner for `re.split(r'\n\s*\n', text)`.  At a `'\n'`, the greedy `\s*`
with backtracking makes the match extend to the last `'\n'` of the maximal
whitespace run that follows; a `'\n'` not followed by another `'\n'` within
that run is an ordinary character.  `fuel` bounds the recursion (each step
consumes at least one input character, so `fuel = input length` suffices). -/
def reSplitGo : Nat → List Char → List Char → List (List Char)
  | _, [], acc => [acc.reverse]
  | 0, rest, acc => [acc.reverse ++ rest]
  | fuel + 1, c :: rest, acc =>
    if c = '\n' then
      match lastIdxOf '\n' (rest.takeWhile isPySpace) with
      | some k => acc.reverse :: reSplitGo fuel (rest.drop (k + 1)) []
      | none => reSplitGo fuel rest (c :: acc)
    else reSplitGo fuel rest (c :: acc)

/-- `re.split(r'\n\s*\n', text)` (final_embedding_solution.py:185). -/
def reSplitParas (cs : List Char) : List (List Char) :=
  reSplitGo cs.length cs []

/-- Python `str.strip()`: drop leading and trailing whitespace. -/
def pyStrip (cs : List Char) : List Char :=
  ((cs.dropWhile isPySpace).reverse.dropWhile isPySpace).reverse

/-- The paragraphs the loop actually iterates over: split, strip, and skip
empties (`if not para: continue`, final_embedding_solution.py:190-193). -/
def normParas (cs : List Char) : List (List Char) :=
  ((reSplitParas cs).map pyStrip).filter (fun p => !p.isEmpty)

/-- `current_size`: the running sum of stripped paragraph lengths of the
current chunk (final_embedding_solution.py:188,202,205). -/
def sumLen (l : List (List α)) : Nat := (l.map List.length).sum

/-- The paragraph-packing loop of the fallback splitter
(final_embedding_solution.py:190-208), producing each chunk as its list of
paragraphs.  On overflow (`current_size + para_size > chunk_size` with a
nonempty current chunk) the current chunk is emitted and the next one starts
from `current_chunk[-1:]` when `chunk_overlap > 0`, else from `[]`; the
paragraph is then appended.  The trailing nonempty chunk is emitted at the
end. -/
def chunkLoop (chunk_size chunk_overlap : Nat) :
    List (List α) → List (List α) → List (List (List α))
  | [], current => if current.isEmpty then [] else [current]
  | para :: rest, current =>
    if decide (chunk_size < sumLen current + para.length) && !current.isEmpty then
      current ::
        chunkLoop chunk_size chunk_overlap rest
          ((if 0 < chunk_overlap then current.drop (current.length - 1) else []) ++ [para])
    else chunkLoop chunk_size chunk_overlap rest (current ++ [para])

/-- The fallback splitter at the paragraph level: chunks as paragraph lists. -/
def splitParas (text : List Char) (chunk_size chunk_overlap : Nat) :
    List (List (List Char)) :=
  chunkLoop chunk_size chunk_overlap (normParas text) []

/-- `DocumentProcessor.split_text`, fallback branch
(final_embedding_solution.py:182-210): the chunk strings, each rendered by
`"\n\n".join(chunk_paragraphs)`. -/
def split_text_fallback (text : String) (chunk_size chunk_overlap : Nat) :
    List String :=
  (splitParas text.data chunk_size chunk_overlap).map
    (fun ps => String.mk (List.intercalate ['\n', '\n'] ps))

/-- Concatenation of the chunks' paragraphs with the overlap paragraph (the
first paragraph of every chunk after the first) removed. -/
def droppedChunks : List (List β) → List β
  | [] => []
  | c :: rest => c ++ (rest.map (fun d => d.drop 1)).flatten

/-! ### Record assembly

Source: `process_document` (process_document.py:137-170 and
final_embedding_solution.py:330-346): extract `doc_id` as the file name
without extension, build one metadata mapping per chunk with identifier
`f"{doc_id}_chunk_{i+1}"`, embed all chunk texts in one batched call, and zip
embeddings with metadata into the vectors handed to upsert. -/

/-- `os.path.basename(p)` on POSIX: the part after the last `'/'`
(`p[p.rfind('/') + 1:]`). -/
def basenameChars (cs : List Char) : List Char :=
  match lastIdxOf '/' cs with
  | none => cs
  | some i => cs.drop (i + 1)

/-- The root part of `os.path.splitext(name)`: cut at the last `'.'` provided
some earlier character of the name is not a dot (so dotfiles keep their
name). -/
def stemChars (cs : List Char) : List Char :=
  match lastIdxOf '.' cs with
  | none => cs
  | some d => if (cs.take d).any (fun c => c ≠ '.') then cs.take d else cs

/-- `doc_id = os.path.splitext(os.path.basename(file_path))[0]`
(process_document.py:142-143, final_embedding_solution.py:331-332). -/
def doc_id_of (file_path : String) : String :=
  String.mk (stemChars (basenameChars file_path.data))

/-- The metadata dict built per chunk (process_document.py:147-154). -/
structure ChunkMetadata where
  id : String
  source : String
  text : String
  chunk_num : Nat
  total_chunks : Nat
  document_id : String

/-- The record handed to Pinecone: identifier, embedding values, metadata
(process_document.py:165-170). -/
structure PineconeVector where
  id : String
  values : List ℝ
  metadata : ChunkMetadata

/-- The model name used by the pipeline (process_document.py:24). -/
def model_name_e5 : String := "intfloat/multilingual-e5-large"

/-- The per-chunk metadata loop `for i, chunk in enumerate(chunks)`
(process_document.py:145-157): the `i`-th chunk (0-based) gets identifier
`f"{doc_id}_chunk_{i+1}"` and ordinal `chunk_num = i+1`. -/
def doc_metadatas (file_path : String) (chunks : List String) : List ChunkMetadata :=
  ((List.range chunks.length).zip chunks).map
    (fun p =>
      { id := doc_id_of file_path ++ "_chunk_" ++ toString (p.1 + 1)
        source := file_path
        text := p.2
        chunk_num := p.1 + 1
        total_chunks := chunks.length
        document_id := doc_id_of file_path })

/-- The record-building stage of `process_document`
(process_document.py:137-170): embed the chunk texts with
`get_embeddings(docs_to_embed, model_name, batch_size=8)` and zip the
embeddings with the per-chunk metadata into upsert records. -/
noncomputable def process_document_vectors (M : String → String → List ℝ)
    (rng : Nat → Nat → ℝ) (modelOk : Bool) (file_path : String)
    (chunks : List String) : List PineconeVector :=
  let doc_metas := doc_metadatas file_path chunks
  let document_embeddings := get_embeddings M rng modelOk chunks model_name_e5 8 false
  (document_embeddings.zip doc_metas).map
    (fun p => { id := p.2.id, values := p.1, metadata := p.2 })

/-- The metadata dict built per chunk by `process_text_file`
(process_text.py:139-145 and 174-180): unlike `process_document`, both of its
branches assign `chunk_id = str(uuid.uuid4())` as the record identifier, and
no `document_id` field is stored. -/
structure TextChunkMetadata where
  id : String
  source : String
  text : String
  chunk_num : Nat
  total_chunks : Nat

/-- The record `process_text_file` hands to Pinecone (process_text.py:211-216). -/
structure TextPineconeVector where
  id : String
  values : List ℝ
  metadata : TextChunkMetadata

/-- The per-chunk metadata loop of `process_text_file`
(process_text.py:135-152 and 170-180, identical id assignment in the markdown
and non-markdown branches): the `i`-th chunk gets identifier
`str(uuid.uuid4())`, modelled by a stream `uuids : Nat → String` of the uuid
strings the generator produces, and ordinal `chunk_num = i+1`. -/
def text_metadatas (uuids : Nat → String) (file_path : String)
    (chunks : List String) : List TextChunkMetadata :=
  ((List.range chunks.length).zip chunks).map
    (fun p =>
      { id := uuids p.1
        source := file_path
        text := p.2
        chunk_num := p.1 + 1
        total_chunks := chunks.length })

/-- The record-building stage of `process_text_file` (process_text.py:132-216):
embed the chunk texts with `get_embeddings(docs_to_embed, model_name,
batch_size=8)` and zip the embeddings with the per-chunk metadata — whose
identifiers are uuid4 strings — into upsert records.  The chunk texts
themselves come from the external markdown/recursive splitters. -/
noncomputable def process_text_vectors (M : String → String → List ℝ)
    (rng : Nat → Nat → ℝ) (uuids : Nat → String) (modelOk : Bool)
    (file_path : String) (chunks : List String) : List TextPineconeVector :=
  let doc_metas := text_metadatas uuids file_path chunks
  let document_embeddings := get_embeddings M rng modelOk chunks model_name_e5 8 false
  (document_embeddings.zip doc_metas).map
    (fun p => { id := p.2.id, values := p.1, metadata := p.2 })

/-! ### Batched upsert

Source: `PineconeManager.upsert_vectors` (final_embedding_solution.py:248-265)
and the inline loop of `process_document` (process_document.py:172-181): both
iterate `for i in range(0, len(vectors), batch_size)` and issue one
`index.upsert(vectors=batch, namespace=...)` call per slice, synchronously,
each call returning before the next begins.  We model the operation by its
write trace: the list of batches in the order the calls are issued. -/

def upsert_vectors (vectors : List α) (batch_size : Nat) : List (List α) :=
  batchesOf batch_size vectors

/-! ### Lemmas and claim theorems -/

theorem batchesOf_nil (B : Nat) : batchesOf B ([] : List α) = [] := by
  rw [batchesOf]

theorem batchesOf_cons (B : Nat) (a : α) (ts : List α) :
    batchesOf B (a :: ts) = ((a :: ts).take B) :: batchesOf B (ts.drop (B - 1)) := by
  rw [batchesOf]

/-- Every batch the loop forms has at most `B` elements (the slice `texts[i:i+B]`). -/
theorem length_le_of_mem_batchesOf (B : Nat) :
    ∀ (l : List α), ∀ b ∈ batchesOf B l, b.length ≤ B
  | [] => by simp [batchesOf_nil]
  | a :: ts => by
    intro b hb
    rw [batchesOf_cons] at hb
    rcases List.mem_cons.mp hb with hb | hb
    · subst hb
      simp only [List.length_take]
      omega
    · exact length_le_of_mem_batchesOf B (ts.drop (B - 1)) b hb
termination_by l => l.length
decreasing_by
  simp only [List.length_drop, List.length_cons]
  omega

/-- For a positive batch size, concatenating the batches in loop order
recovers the input list: the loop covers every element exactly once, in order. -/
theorem flatten_batchesOf (B : Nat) (hB : 1 ≤ B) :
    ∀ (l : List α), (batchesOf B l).flatten = l
  | [] => by simp [batchesOf_nil]
  | a :: ts => by
    rw [batchesOf_cons]
    have ih := flatten_batchesOf B hB (ts.drop (B - 1))
    obtain ⟨B', rfl⟩ : ∃ B', B = B' + 1 := ⟨B - 1, by omega⟩
    simp only [Nat.add_sub_cancel] at ih ⊢
    rw [List.flatten_cons, ih, List.take_succ_cons, List.cons_append,
      List.take_append_drop]
termination_by l => l.length
decreasing_by
  simp only [List.length_drop, List.length_cons]
  omega

/-- With batch size `0` every slice `l[i:i+0]` is empty (in Python,
`range(0, n, 0)` raises, which the caller catches; see `get_embeddings`). -/
theorem mem_batchesOf_zero_eq_nil (l : List α) : ∀ b ∈ batchesOf 0 l, b = [] := by
  intro b hb
  have := length_le_of_mem_batchesOf 0 l b hb
  exact List.length_eq_zero.mp (Nat.le_zero.mp this)

theorem flatten_map_map (g : α → β) :
    ∀ L : List (List α), (L.map (List.map g)).flatten = L.flatten.map g := by
  intro L
  induction L with
  | nil => rfl
  | cons x xs ih => simp only [List.map_cons, List.flatten_cons, List.map_append, ih]

/-- For a positive batch size the batching loop is extensionally the map of the
per-text embedding over the input, in order. -/
theorem generate_embeddings_eq_map (E : String → List ℝ) (texts : List String)
    (B : Nat) (hB : 1 ≤ B) :
    generate_embeddings E texts B = texts.map (embedText E) := by
  unfold generate_embeddings
  have h1 : ∀ batch : List String,
      (batch.map (fun t => "passage: " ++ t)).map (fun s => l2normalize (E s))
        = batch.map (embedText E) := by
    intro batch
    rw [List.map_map]
    rfl
  calc ((batchesOf B texts).map
        (fun batch => (batch.map (fun t => "passage: " ++ t)).map
          (fun s => l2normalize (E s)))).flatten
      = ((batchesOf B texts).map (List.map (embedText E))).flatten := by
        simp only [h1]
    _ = (batchesOf B texts).flatten.map (embedText E) := flatten_map_map _ _
    _ = texts.map (embedText E) := by rw [flatten_batchesOf B hB]

/-- With batch size `0` every slice is empty, so the loop produces nothing. -/
theorem generate_embeddings_zero (E : String → List ℝ) (texts : List String) :
    generate_embeddings E texts 0 = [] := by
  unfold generate_embeddings
  rw [List.flatten_eq_nil_iff]
  intro b hb
  rcases List.mem_map.mp hb with ⟨batch, hbatch, rfl⟩
  rw [mem_batchesOf_zero_eq_nil texts batch hbatch]
  rfl

theorem length_mockList (rng : Nat → Nat → ℝ) (n : Nat) :
    (mockList rng n).length = n := by
  simp [mockList]

theorem length_get_embeddings (M : String → String → List ℝ) (rng : Nat → Nat → ℝ)
    (modelOk : Bool) (texts : List String) (model_name : String)
    (batch_size : Nat) (use_mock : Bool) :
    (get_embeddings M rng modelOk texts model_name batch_size use_mock).length
      = texts.length := by
  unfold get_embeddings
  split
  · exact length_mockList rng texts.length
  · split
    · rcases Nat.eq_zero_or_pos batch_size with h0 | hpos
      · subst h0
        simp [generate_embeddings_zero, length_mockList]
      · rw [generate_embeddings_eq_map _ _ _ hpos]
        by_cases hts : texts = []
        · subst hts
          simp [length_mockList]
        · simp [List.isEmpty_iff, List.map_eq_nil_iff, hts]
    · exact length_mockList rng texts.length

theorem sumSq_nonneg (v : List ℝ) : 0 ≤ sumSq v := by
  unfold sumSq
  apply List.sum_nonneg
  intro x hx
  rcases List.mem_map.mp hx with ⟨y, _, rfl⟩
  exact mul_self_nonneg y

theorem sumSq_cons (a : ℝ) (v : List ℝ) : sumSq (a :: v) = a * a + sumSq v := by
  simp [sumSq]

theorem sumSq_map_div (c : ℝ) (v : List ℝ) :
    sumSq (v.map (fun x => x / c)) = sumSq v / (c * c) := by
  induction v with
  | nil => simp [sumSq]
  | cons a v ih =>
    rw [List.map_cons, sumSq_cons, sumSq_cons, ih, div_mul_div_comm, div_add_div_same]

/-- Normalizing a vector of nonzero norm yields a vector of squared norm `1`. -/
theorem sumSq_l2normalize (v : List ℝ) (hv : sumSq v ≠ 0) :
    sumSq (l2normalize v) = 1 := by
  unfold l2normalize
  rw [sumSq_map_div, Real.mul_self_sqrt (sumSq_nonneg v), div_self hv]

theorem sumSq_replicate (n : Nat) (c : ℝ) :
    sumSq (List.replicate n c) = n * (c * c) := by
  induction n with
  | zero => simp [sumSq]
  | succ n ih =>
    rw [List.replicate_succ, sumSq_cons, ih]
    push_cast
    ring

theorem mockVec_half (i : Nat) :
    mockVec (fun _ _ => (1 : ℝ) / 2) i = List.replicate 1024 ((1 : ℝ) / 2) := by
  unfold mockVec
  rw [List.map_const']
  simp

theorem length_mockVec (rng : Nat → Nat → ℝ) (i : Nat) :
    (mockVec rng i).length = 1024 := by
  simp [mockVec]

theorem drop_length_sub_one :
    ∀ (l : List α) (h : l ≠ []), l.drop (l.length - 1) = [l.getLast h]
  | [a], _ => rfl
  | a :: b :: t, _ => by
    have ih := drop_length_sub_one (b :: t) (by simp)
    simp only [List.length_cons, Nat.add_sub_cancel] at ih ⊢
    rw [List.getLast_cons (by simp : b :: t ≠ []), List.drop_succ_cons]
    simpa using ih

/-- The loop only ever appends to the current chunk before emitting it, so the
first chunk it emits starts with the first paragraph of the current state. -/
theorem chunkLoop_cons_head (csz ov : Nat) (paras : List (List α)) :
    ∀ current : List (List α), current ≠ [] →
      ∃ c t, chunkLoop csz ov paras current = c :: t ∧ c.head? = current.head? := by
  induction paras with
  | nil =>
    intro current h
    refine ⟨current, [], ?_, rfl⟩
    simp [chunkLoop, List.isEmpty_iff, h]
  | cons para rest ih =>
    intro current h
    simp only [chunkLoop]
    by_cases hcond : (decide (csz < sumLen current + para.length)
        && !current.isEmpty) = true
    · rw [if_pos hcond]
      exact ⟨current, _, rfl, rfl⟩
    · rw [if_neg hcond]
      obtain ⟨c, t, heq, hhd⟩ := ih (current ++ [para]) (by simp)
      refine ⟨c, t, heq, ?_⟩
      rw [hhd]
      cases current with
      | nil => exact absurd rfl h
      | cons a l => simp

/-- With a positive overlap, every chunk emitted after the first begins with
the last paragraph of the previously emitted chunk. -/
theorem chunkLoop_chain (csz ov : Nat) (hov : 0 < ov) (paras : List (List α)) :
    ∀ current : List (List α), current ≠ [] →
      List.Chain' (fun a b => b.head? = a.getLast?) (chunkLoop csz ov paras current) := by
  induction paras with
  | nil =>
    intro current h
    simp [chunkLoop, List.isEmpty_iff, h]
  | cons para rest ih =>
    intro current h
    simp only [chunkLoop]
    by_cases hcond : (decide (csz < sumLen current + para.length)
        && !current.isEmpty) = true
    · rw [if_pos hcond, if_pos hov]
      have hcur'ne : current.drop (current.length - 1) ++ [para] ≠ [] := by simp
      obtain ⟨c, t, heq, hhd⟩ := chunkLoop_cons_head csz ov rest _ hcur'ne
      rw [heq]
      refine List.chain'_cons.mpr ⟨?_, ?_⟩
      · rw [hhd, drop_length_sub_one current h]
        simp [List.getLast?_eq_getLast current h]
      · rw [← heq]
        exact ih _ hcur'ne
    · rw [if_neg hcond]
      exact ih (current ++ [para]) (by simp)

/-- With a positive overlap, removing the leading (overlap) paragraph of every
chunk after the first and concatenating recovers the pending chunk followed by
the remaining paragraphs in document order. -/
theorem chunkLoop_dropped (csz ov : Nat) (hov : 0 < ov) (paras : List (List α)) :
    ∀ current : List (List α), current ≠ [] →
      droppedChunks (chunkLoop csz ov paras current) = current ++ paras := by
  induction paras with
  | nil =>
    intro current h
    simp [chunkLoop, List.isEmpty_iff, h, droppedChunks]
  | cons para rest ih =>
    intro current h
    simp only [chunkLoop]
    by_cases hcond : (decide (csz < sumLen current + para.length)
        && !current.isEmpty) = true
    · rw [if_pos hcond, if_pos hov]
      have hcur'ne : current.drop (current.length - 1) ++ [para] ≠ [] := by simp
      obtain ⟨c, t, heq, hhd⟩ := chunkLoop_cons_head csz ov rest _ hcur'ne
      have hdrop := ih _ hcur'ne
      rw [heq] at hdrop ⊢
      rw [drop_length_sub_one current h] at hdrop hhd
      cases c with
      | nil => simp at hhd
      | cons c0 c' =>
        simp only [List.head?_cons, List.singleton_append, List.head?_cons,
          Option.some_inj] at hhd
        subst hhd
        simp only [droppedChunks, List.cons_append, List.nil_append,
          List.cons.injEq, true_and] at hdrop
        simp only [droppedChunks, List.map_cons, List.flatten_cons,
          List.drop_one, List.tail_cons]
        simp only [List.drop_one] at hdrop
        rw [hdrop]
    · rw [if_neg hcond]
      rw [ih (current ++ [para]) (by simp)]
      simp

theorem map_fst_zip_eq (g : α → γ) :
    ∀ (l₁ : List α) (l₂ : List β), l₁.length = l₂.length →
      (l₁.zip l₂).map (fun p => g p.1) = l₁.map g
  | [], [], _ => rfl
  | [], b :: l₂, h => by simp at h
  | a :: l₁, [], h => by simp at h
  | a :: l₁, b :: l₂, h => by
    simp only [List.zip_cons_cons, List.map_cons, List.cons.injEq, true_and]
    exact map_fst_zip_eq g l₁ l₂ (by simpa using h)

theorem map_snd_zip_eq (g : β → γ) :
    ∀ (l₁ : List α) (l₂ : List β), l₁.length = l₂.length →
      (l₁.zip l₂).map (fun p => g p.2) = l₂.map g
  | [], [], _ => rfl
  | [], b :: l₂, h => by simp at h
  | a :: l₁, [], h => by simp at h
  | a :: l₁, b :: l₂, h => by
    simp only [List.zip_cons_cons, List.map_cons, List.cons.injEq, true_and]
    exact map_snd_zip_eq g l₁ l₂ (by simpa using h)

theorem generate_embeddings_nil (E : String → List ℝ) (B : Nat) :
    generate_embeddings E [] B = [] := by
  unfold generate_embeddings
  rw [batchesOf_nil]
  rfl

theorem get_embeddings_use_mock (M : String → String → List ℝ)
    (rng : Nat → Nat → ℝ) (modelOk : Bool) (texts : List String)
    (model_name : String) (B : Nat) :
    get_embeddings M rng modelOk texts model_name B true
      = mockList rng texts.length := by
  simp [get_embeddings]

theorem mockList_one (rng : Nat → Nat → ℝ) :
    mockList rng 1 = [mockVec rng 0] := by
  simp [mockList, List.range_succ]

theorem get_embeddings_model_path (M : String → String → List ℝ)
    (rng : Nat → Nat → ℝ) (texts : List String) (model_name : String) (B : Nat)
    (hB : 1 ≤ B) (hts : texts ≠ []) :
    get_embeddings M rng true texts model_name B false
      = texts.map (embedText (M model_name)) := by
  simp only [get_embeddings]
  rw [generate_embeddings_eq_map _ _ _ hB]
  simp [List.isEmpty_iff, List.map_eq_nil_iff, hts]

/-- C1: for every input list of texts and every positive batch size `B`, the
embedder's batching loop (shared by `get_embeddings` and
`E5Embedder.generate_embeddings`) returns a list of exactly the input's
length, the vector at position `i` is the embedding of the text at position
`i` (prefix, model call, normalization), and every underlying model invocation
receives at most `B` texts; batching never reorders outputs. -/
theorem embedder_batching_preserves_order (E : String → List ℝ)
    (texts : List String) (B : Nat) (hB : 1 ≤ B) :
    (generate_embeddings E texts B).length = texts.length
    ∧ (∀ i : Nat, (generate_embeddings E texts B)[i]?
        = (texts[i]?).map (embedText E))
    ∧ ∀ batch ∈ batchesOf B texts, batch.length ≤ B := by
  rw [generate_embeddings_eq_map E texts B hB]
  exact ⟨List.length_map _ _, fun i => List.getElem?_map _ _ _,
    length_le_of_mem_batchesOf B texts⟩

theorem embedder_batching_preserves_order_witness :
    1 ≤ 2
    ∧ ((generate_embeddings (fun _ => [(1 : ℝ)]) ["a", "b", "c"] 2).length
          = (["a", "b", "c"] : List String).length
      ∧ (∀ i : Nat, (generate_embeddings (fun _ => [(1 : ℝ)]) ["a", "b", "c"] 2)[i]?
          = ((["a", "b", "c"] : List String)[i]?).map (embedText (fun _ => [(1 : ℝ)])))
      ∧ ∀ batch ∈ batchesOf 2 (["a", "b", "c"] : List String), batch.length ≤ 2) :=
  ⟨by decide, embedder_batching_preserves_order _ _ _ (by decide)⟩

/-- C2 counterexample: with mock mode selected (one of the paths
`get_embeddings` can take, and the same vectors the fallback path returns),
the returned vector is the raw pseudo-random sample — here every component
`1/2`, a legitimate draw from `[-1, 1)` — whose squared Euclidean norm is
`256`, not `1`; no normalization is applied on this path. -/
theorem mock_path_not_unit_norm_counterexample :
    get_embeddings (fun _ _ => [(1 : ℝ)]) (fun _ _ => (1 : ℝ) / 2) true ["a"]
        "intfloat/multilingual-e5-large" 8 true
      = [List.replicate 1024 ((1 : ℝ) / 2)]
    ∧ (-1 ≤ (1 : ℝ) / 2 ∧ (1 : ℝ) / 2 < 1)
    ∧ sumSq (List.replicate 1024 ((1 : ℝ) / 2)) ≠ 1 := by
  refine ⟨?_, ⟨by norm_num, by norm_num⟩, ?_⟩
  · rw [get_embeddings_use_mock]
    rw [show (["a"] : List String).length = 1 from rfl, mockList_one, mockVec_half]
  · rw [sumSq_replicate]
    norm_num

/-- C2 (amended): on the successful model path (`use_mock=False`, model loads
and runs) every vector `get_embeddings` returns is unit-normalized — squared
Euclidean norm exactly `1` in the exact-real idealization — provided the
model's pooled outputs are nonzero; the mock/fallback path returns raw
uniform samples instead. -/
theorem model_path_unit_norm (M : String → String → List ℝ)
    (rng : Nat → Nat → ℝ) (texts : List String) (model_name : String) (B : Nat)
    (hB : 1 ≤ B) (hM : ∀ s : String, sumSq (M model_name s) ≠ 0) :
    ∀ v ∈ get_embeddings M rng true texts model_name B false, sumSq v = 1 := by
  intro v hv
  by_cases hts : texts = []
  · subst hts
    rw [show get_embeddings M rng true [] model_name B false = mockList rng 0
        from by simp [get_embeddings, generate_embeddings_nil]] at hv
    simp [mockList] at hv
  · rw [get_embeddings_model_path M rng texts model_name B hB hts] at hv
    rcases List.mem_map.mp hv with ⟨t, _, rfl⟩
    exact sumSq_l2normalize _ (hM _)

theorem model_path_unit_norm_witness :
    1 ≤ 8
    ∧ (∀ s : String, sumSq ((fun _ _ => [(1 : ℝ)]) "m" s) ≠ 0)
    ∧ ∀ v ∈ get_embeddings (fun _ _ => [(1 : ℝ)]) (fun _ _ => (0 : ℝ)) true
          ["a"] "m" 8 false,
        sumSq v = 1 :=
  ⟨by norm_num, fun s => by norm_num [sumSq],
    model_path_unit_norm _ _ _ _ _ (by norm_num) (fun s => by norm_num [sumSq])⟩

/-- C3: batch size does not affect the embedder's output: `get_embeddings`
with `batch_size=1` and with `batch_size=8` return the same sequence of
vectors for the same input order, on every path (model or mock).  In this
exact-real model of the per-text model boundary, equality is exact. -/
theorem batch_size_does_not_affect_output (M : String → String → List ℝ)
    (rng : Nat → Nat → ℝ) (modelOk : Bool) (texts : List String)
    (model_name : String) (use_mock : Bool) :
    get_embeddings M rng modelOk texts model_name 1 use_mock
      = get_embeddings M rng modelOk texts model_name 8 use_mock := by
  simp only [get_embeddings]
  rw [generate_embeddings_eq_map _ _ 1 (le_refl 1),
    generate_embeddings_eq_map _ _ 8 (by norm_num)]

/-- C4 counterexample: with `use_mock=False` and a model that cannot be loaded
or invoked, `get_embeddings` does not fail the operation: it returns
pseudo-random substitute vectors (here every component `1/2`) as a normal
result, although the degraded mode was not configured. -/
theorem model_failure_silent_mock_counterexample :
    get_embeddings (fun _ _ => [(1 : ℝ)]) (fun _ _ => (1 : ℝ) / 2) false ["a"]
        "intfloat/multilingual-e5-large" 8 false
      = [List.replicate 1024 ((1 : ℝ) / 2)] := by
  rw [show get_embeddings (fun _ _ => [(1 : ℝ)]) (fun _ _ => (1 : ℝ) / 2) false
        ["a"] "intfloat/multilingual-e5-large" 8 false
      = mockList (fun _ _ => (1 : ℝ) / 2) (["a"] : List String).length
    from by simp [get_embeddings]]
  rw [show (["a"] : List String).length = 1 from rfl, mockList_one, mockVec_half]

/-- C4 (amended): if the model cannot be loaded or invoked and
`use_mock=False`, `get_embeddings` catches the exception, logs it, and returns
pseudo-random mock vectors — one per input text — to the caller instead of
failing; the fallback is taken on every model failure, not only in an
explicitly configured degraded mode. -/
theorem model_failure_falls_back_to_mock (M : String → String → List ℝ)
    (rng : Nat → Nat → ℝ) (texts : List String) (model_name : String)
    (B : Nat) :
    get_embeddings M rng false texts model_name B false
      = mockList rng texts.length
    ∧ (mockList rng texts.length).length = texts.length := by
  refine ⟨?_, length_mockList rng texts.length⟩
  simp [get_embeddings]

/-- C5 (amended): the `process_document` drivers (process_document.py,
final_embedding_solution.py) build exactly one record per chunk, and the
record for the chunk at 0-based position `i` — whose ordinal `chunk_num` is
`i+1` — has identifier `f"{doc_id}_chunk_{i+1}"`, where `doc_id` is the
source file name without its extension.  The `process_text_file` driver
(process_text.py) instead assigns each record a fresh uuid4 string
identifier; see the counterexample below. -/
theorem one_record_per_chunk_with_id (M : String → String → List ℝ)
    (rng : Nat → Nat → ℝ) (modelOk : Bool) (file_path : String)
    (chunks : List String) :
    (process_document_vectors M rng modelOk file_path chunks).length
        = chunks.length
    ∧ (process_document_vectors M rng modelOk file_path chunks).map
          (fun v => v.id)
        = (List.range chunks.length).map
            (fun i => doc_id_of file_path ++ "_chunk_" ++ toString (i + 1))
    ∧ (process_document_vectors M rng modelOk file_path chunks).map
          (fun v => v.metadata.chunk_num)
        = (List.range chunks.length).map (fun i => i + 1) := by
  have hlen_embs :
      (get_embeddings M rng modelOk chunks model_name_e5 8 false).length
        = chunks.length :=
    length_get_embeddings M rng modelOk chunks model_name_e5 8 false
  have hlen_metas : (doc_metadatas file_path chunks).length = chunks.length := by
    simp [doc_metadatas]
  have hlen_zip : (get_embeddings M rng modelOk chunks model_name_e5 8
      false).length = (doc_metadatas file_path chunks).length := by
    rw [hlen_embs, hlen_metas]
  have hlen_rz : (List.range chunks.length).length = chunks.length :=
    List.length_range chunks.length
  refine ⟨?_, ?_, ?_⟩
  · simp [process_document_vectors, List.length_zip, hlen_embs, hlen_metas]
  · simp only [process_document_vectors, List.map_map]
    rw [show ((get_embeddings M rng modelOk chunks model_name_e5 8 false).zip
          (doc_metadatas file_path chunks)).map
          ((fun v : PineconeVector => v.id)
            ∘ (fun p => { id := p.2.id, values := p.1, metadata := p.2 }))
        = (doc_metadatas file_path chunks).map (fun m => m.id)
      from map_snd_zip_eq (fun m : ChunkMetadata => m.id) _ _ hlen_zip]
    simp only [doc_metadatas, List.map_map]
    exact map_fst_zip_eq
      (fun i => doc_id_of file_path ++ "_chunk_" ++ toString (i + 1)) _ _
      (by rw [hlen_rz])
  · simp only [process_document_vectors, List.map_map]
    rw [show ((get_embeddings M rng modelOk chunks model_name_e5 8 false).zip
          (doc_metadatas file_path chunks)).map
          ((fun v : PineconeVector => v.metadata.chunk_num)
            ∘ (fun p => { id := p.2.id, values := p.1, metadata := p.2 }))
        = (doc_metadatas file_path chunks).map (fun m => m.chunk_num)
      from map_snd_zip_eq (fun m : ChunkMetadata => m.chunk_num) _ _ hlen_zip]
    simp only [doc_metadatas, List.map_map]
    exact map_fst_zip_eq (fun i => i + 1) _ _ (by rw [hlen_rz])

/-- C5 counterexample: the claim quantifies over every pipeline driver, but
`process_text_file` (process_text.py:132-180) assigns `str(uuid.uuid4())` as
the record identifier.  Processing the one-chunk document
`docs/report.txt` there yields a record whose identifier is the generated
uuid string, not `f"{document_id}_chunk_{1}"` (`"report_chunk_1"`). -/
theorem process_text_uuid_ids_counterexample :
    (process_text_vectors (fun _ _ => [(1 : ℝ)]) (fun _ _ => (0 : ℝ))
        (fun _ => "00000000-0000-4000-8000-000000000000") true
        "docs/report.txt" ["A."]).map (fun v => v.id)
      = ["00000000-0000-4000-8000-000000000000"]
    ∧ "00000000-0000-4000-8000-000000000000"
      ≠ doc_id_of "docs/report.txt" ++ "_chunk_" ++ toString (0 + 1) := by
  constructor
  · simp only [process_text_vectors]
    rw [get_embeddings_model_path (fun _ _ => [(1 : ℝ)]) (fun _ _ => (0 : ℝ))
      ["A."] model_name_e5 8 (by norm_num) (by simp)]
    simp [text_metadatas, List.range_succ]
  · decide

/-- C6: for every input text and every chunk_size/overlap pair with
overlap > 0, in the fallback paragraph-based splitter each chunk after the
first begins by repeating the last paragraph of the previous chunk (overlap by
whole paragraph), and chunks appear in document order: stripping the leading
overlap paragraph from every chunk after the first and concatenating recovers
exactly the document's (stripped, nonempty) paragraphs in order.  Chunk
strings are the `"\n\n"`-joins of these paragraph lists. -/
theorem fallback_chunk_overlap_and_order (text : String)
    (chunk_size chunk_overlap : Nat) (hov : 0 < chunk_overlap) :
    List.Chain' (fun a b => b.head? = a.getLast?)
        (splitParas text.data chunk_size chunk_overlap)
    ∧ droppedChunks (splitParas text.data chunk_size chunk_overlap)
        = normParas text.data
    ∧ split_text_fallback text chunk_size chunk_overlap
        = (splitParas text.data chunk_size chunk_overlap).map
            (fun ps => String.mk (List.intercalate ['\n', '\n'] ps)) := by
  refine ⟨?_, ?_, rfl⟩
  · unfold splitParas
    cases hp : normParas text.data with
    | nil => simp [chunkLoop]
    | cons p rest =>
      simp only [chunkLoop, List.isEmpty_nil, Bool.not_true, Bool.and_false,
        Bool.false_eq_true, if_false, List.nil_append]
      exact chunkLoop_chain _ _ hov rest [p] (by simp)
  · unfold splitParas
    cases hp : normParas text.data with
    | nil => simp [chunkLoop, droppedChunks]
    | cons p rest =>
      simp only [chunkLoop, List.isEmpty_nil, Bool.not_true, Bool.and_false,
        Bool.false_eq_true, if_false, List.nil_append]
      rw [chunkLoop_dropped _ _ hov rest [p] (by simp)]
      rfl

theorem fallback_chunk_overlap_and_order_witness :
    0 < 1
    ∧ (List.Chain' (fun a b => b.head? = a.getLast?)
          (splitParas "AA\n\nBB\n\nCC".data 2 1)
      ∧ droppedChunks (splitParas "AA\n\nBB\n\nCC".data 2 1)
          = normParas "AA\n\nBB\n\nCC".data
      ∧ split_text_fallback "AA\n\nBB\n\nCC" 2 1
          = (splitParas "AA\n\nBB\n\nCC".data 2 1).map
              (fun ps => String.mk (List.intercalate ['\n', '\n'] ps))) :=
  ⟨by decide, fallback_chunk_overlap_and_order _ _ _ (by decide)⟩

/-- C7: chunking the two-paragraph text `"A.\n\nB."` with the fallback
splitter and `chunk_size=100, overlap=0` yields exactly one chunk
`"A.\n\nB."`; with `chunk_size=2, overlap=0` it yields exactly the two chunks
`"A."` then `"B."`. -/
theorem fallback_two_paragraph_scenarios :
    split_text_fallback "A.\n\nB." 100 0 = ["A.\n\nB."]
    ∧ split_text_fallback "A.\n\nB." 2 0 = ["A.", "B."] := by
  constructor <;> decide

/-- C8: for every record list and positive `batch_size`, the upsert loop
issues its writes as consecutive batches of at most `batch_size` records
whose concatenation in write order is exactly the input list; the write trace
is sequential, each batch's call returning before the next is issued. -/
theorem upsert_batches_partition (v : List α) (B : Nat) (hB : 1 ≤ B) :
    (∀ b ∈ upsert_vectors v B, b.length ≤ B)
    ∧ (upsert_vectors v B).flatten = v :=
  ⟨length_le_of_mem_batchesOf B v, flatten_batchesOf B hB v⟩

theorem upsert_batches_partition_witness :
    1 ≤ 2
    ∧ ((∀ b ∈ upsert_vectors [1, 2, 3, 4, 5] 2, b.length ≤ 2)
      ∧ (upsert_vectors [1, 2, 3, 4, 5] 2).flatten = [1, 2, 3, 4, 5]) :=
  ⟨by decide, upsert_batches_partition _ _ (by decide)⟩

/-- C9: for every input (including the empty list), every batch size, and any
outcome of the model path, `get_embeddings` returns exactly one vector per
input text; it is a total function (every exception inside the `try`,
including the `IndexError` of the dimension computation on empty input, is
caught and routed to the mock fallback, which yields one vector per text).
On empty input the model path produces nothing and the caught `IndexError`
routes to the mock of zero texts. -/
theorem get_embeddings_always_one_vector_per_text (M : String → String → List ℝ)
    (rng : Nat → Nat → ℝ) (modelOk : Bool) (texts : List String)
    (model_name : String) (batch_size : Nat) (use_mock : Bool) :
    (get_embeddings M rng modelOk texts model_name batch_size use_mock).length
        = texts.length
    ∧ get_embeddings M rng true [] model_name batch_size false
        = mockList rng 0 := by
  refine ⟨length_get_embeddings M rng modelOk texts model_name batch_size
    use_mock, ?_⟩
  simp [get_embeddings, generate_embeddings_nil]

/-- C10: every vector of the mock path has dimension exactly 1024 with each
component a uniform draw from `[-1, 1)`, regardless of the requested model
name and of the real model's dimension; and mock vectors are not
unit-normalized (the all-`1/2` draw, legitimate for uniform `[-1, 1)`, has
squared norm `256 ≠ 1`). -/
theorem mock_vectors_dim_1024_in_range (M : String → String → List ℝ)
    (rng : Nat → Nat → ℝ) (modelOk : Bool) (texts : List String)
    (model_name : String) (batch_size : Nat)
    (h : ∀ i j : Nat, -1 ≤ rng i j ∧ rng i j < 1) :
    (∀ v ∈ get_embeddings M rng modelOk texts model_name batch_size true,
        v.length = 1024 ∧ ∀ x ∈ v, -1 ≤ x ∧ x < 1)
    ∧ (-1 ≤ (1 : ℝ) / 2 ∧ (1 : ℝ) / 2 < 1)
    ∧ sumSq (mockVec (fun _ _ => (1 : ℝ) / 2) 0) ≠ 1 := by
  refine ⟨?_, ⟨by norm_num, by norm_num⟩, ?_⟩
  · intro v hv
    rw [get_embeddings_use_mock] at hv
    rcases List.mem_map.mp hv with ⟨i, _, rfl⟩
    refine ⟨length_mockVec rng i, ?_⟩
    intro x hx
    rcases List.mem_map.mp hx with ⟨j, _, rfl⟩
    exact h i j
  · rw [mockVec_half, sumSq_replicate]
    norm_num

theorem mock_vectors_dim_1024_in_range_witness :
    (∀ i j : Nat, -1 ≤ (fun _ _ => (0 : ℝ)) i j ∧ (fun _ _ => (0 : ℝ)) i j < 1)
    ∧ ((∀ v ∈ get_embeddings (fun _ _ => [(1 : ℝ)]) (fun _ _ => (0 : ℝ)) true
            ["a"] "m" 8 true,
          v.length = 1024 ∧ ∀ x ∈ v, -1 ≤ x ∧ x < 1)
      ∧ (-1 ≤ (1 : ℝ) / 2 ∧ (1 : ℝ) / 2 < 1)
      ∧ sumSq (mockVec (fun _ _ => (1 : ℝ) / 2) 0) ≠ 1) :=
  ⟨fun i j => ⟨by norm_num, by norm_num⟩,
    mock_vectors_dim_1024_in_range _ _ _ _ _ _
      (fun i j => ⟨by norm_num, by norm_num⟩)⟩

end Ragster
